import Mathlib

/- Verification of the managed toolbox configuration core of galaxy-lib:
   the group-inlining preprocessing step of galaxy/tools/toolbox/parser.py
   (YamlToolConfSource._preprocess), the version-stamped document store and
   its action interpreter of galaxy/tools/toolbox/managed_conf.py, and the
   dependency view of galaxy/tools/deps/views.py.

   Documents are JSON-style dictionaries.  A Node models one dictionary in
   the tree, carrying exactly the keys the code reads or writes (type, id,
   name, enabled, items); the field extra stands for all remaining keys, so
   that structurally distinct dictionaries can be told apart the way Python
   dictionary equality tells them apart.  Stateful methods are rendered as
   explicit state passing: the persisted file is an Option String (none
   means the file does not exist), and methods that mutate their arguments
   in place return the mutated value.  Python exceptions are rendered with
   Except over the Err type below. -/

/-- Python exception kinds raised by the translated code. -/
inductive Err where
  | keyError
  | typeError
  | valueError
  | assertionError
  | ioError
  | concurrentWrite
  | unknownTarget
  | missingParam
  | notImplementedErr
  | indexError
  deriving DecidableEq, Repr

instance {e a : Type} [DecidableEq e] [DecidableEq a] : DecidableEq (Except e a) := by
  intro x y
  cases x with
  | error ex =>
    cases y with
    | error ey => exact if h : ex = ey then .isTrue (by rw [h]) else .isFalse (by simp [h])
    | ok ay => exact .isFalse (by simp)
  | ok ax =>
    cases y with
    | error ey => exact .isFalse (by simp)
    | ok ay => exact if h : ax = ay then .isTrue (by rw [h]) else .isFalse (by simp [h])

/-- One JSON-style dictionary node of a toolbox document tree.  The fields
    type, id, name, enabled and sub model the dictionary keys "type", "id",
    "name", "enabled" and "items"; a none field means the key is absent.
    extra abstracts every other key of the dictionary. -/
inductive Node where
  | mk (type id name : Option String) (enabled : Option Bool) (extra : Nat)
       (sub : Option (List Node))

/-- Value of the "type" key. -/
def Node.type : Node → Option String
  | .mk t _ _ _ _ _ => t

/-- Value of the "id" key. -/
def Node.id : Node → Option String
  | .mk _ i _ _ _ _ => i

/-- Value of the "name" key. -/
def Node.name : Node → Option String
  | .mk _ _ n _ _ _ => n

/-- Value of the "enabled" key. -/
def Node.enabled : Node → Option Bool
  | .mk _ _ _ e _ _ => e

/-- Value of the abstracted remaining keys. -/
def Node.extra : Node → Nat
  | .mk _ _ _ _ x _ => x

/-- Value of the "items" key. -/
def Node.sub : Node → Option (List Node)
  | .mk _ _ _ _ _ s => s

/-- Replace the "items" key of a node (in-place dictionary update). -/
def Node.withSub : Node → Option (List Node) → Node
  | .mk t i n e x _, s => .mk t i n e x s

/-- Replace the "enabled" key of a node (in-place dictionary update). -/
def Node.withEnabled : Node → Option Bool → Node
  | .mk t i n _ x s, e => .mk t i n e x s

mutual
def nodeBeq : Node → Node → Bool
  | .mk t1 i1 n1 e1 x1 s1, .mk t2 i2 n2 e2 x2 s2 =>
    t1 == t2 && i1 == i2 && n1 == n2 && e1 == e2 && x1 == x2 && subBeq s1 s2
def subBeq : Option (List Node) → Option (List Node) → Bool
  | none, none => true
  | some a, some b => listNodeBeq a b
  | _, _ => false
def listNodeBeq : List Node → List Node → Bool
  | [], [] => true
  | a :: as2, b :: bs2 => nodeBeq a b && listNodeBeq as2 bs2
  | _, _ => false
end

mutual
theorem nodeBeq_iff : ∀ a b : Node, nodeBeq a b = true ↔ a = b
  | .mk t1 i1 n1 e1 x1 s1, .mk t2 i2 n2 e2 x2 s2 => by
    simp only [nodeBeq, Bool.and_eq_true, beq_iff_eq, Node.mk.injEq]
    constructor
    · rintro ⟨⟨⟨⟨⟨h1, h2⟩, h3⟩, h4⟩, h5⟩, h6⟩
      exact ⟨h1, h2, h3, h4, h5, (subBeq_iff s1 s2).mp h6⟩
    · rintro ⟨h1, h2, h3, h4, h5, h6⟩
      exact ⟨⟨⟨⟨⟨h1, h2⟩, h3⟩, h4⟩, h5⟩, (subBeq_iff s1 s2).mpr h6⟩
theorem subBeq_iff : ∀ a b : Option (List Node), subBeq a b = true ↔ a = b
  | none, none => by simp [subBeq]
  | none, some _ => by simp [subBeq]
  | some _, none => by simp [subBeq]
  | some a, some b => by
    simp only [subBeq, Option.some.injEq]
    exact listNodeBeq_iff a b
theorem listNodeBeq_iff : ∀ a b : List Node, listNodeBeq a b = true ↔ a = b
  | [], [] => by simp [listNodeBeq]
  | [], _ :: _ => by simp [listNodeBeq]
  | _ :: _, [] => by simp [listNodeBeq]
  | a :: as2, b :: bs2 => by
    simp only [listNodeBeq, Bool.and_eq_true, List.cons.injEq]
    constructor
    · rintro ⟨h1, h2⟩
      exact ⟨(nodeBeq_iff a b).mp h1, (listNodeBeq_iff as2 bs2).mp h2⟩
    · rintro ⟨h1, h2⟩
      exact ⟨(nodeBeq_iff a b).mpr h1, (listNodeBeq_iff as2 bs2).mpr h2⟩
end

instance : DecidableEq Node := fun a b =>
  if h : nodeBeq a b = true then .isTrue ((nodeBeq_iff a b).mp h)
  else .isFalse (fun he => h ((nodeBeq_iff a b).mpr he))

/-- Python list.remove: delete the first element structurally equal to x,
    raising ValueError when no element matches. -/
def pyRemove (x : Node) : List Node → Except Err (List Node)
  | [] => .error .valueError
  | y :: ys => if y = x then .ok ys else (pyRemove x ys).map (y :: ·)

/-- Python list.insert(i, x) for a non-negative index: the index is clamped
    to the list length, so an index past the end appends. -/
def pyInsert (i : Nat) (x : Node) (l : List Node) : List Node :=
  l.take i ++ x :: l.drop i

/-- The inner loop of replace_groups_in_items: insert the group items one by
    one at consecutive positions starting at c, each insert clamped. -/
def insertSeq (c : Nat) (body : List Node) (l : List Node) : List Node :=
  match body with
  | [] => l
  | b :: bs => insertSeq (c + 1) bs (pyInsert c b l)

/-- In-place mutation of a dictionary that sits somewhere in a list,
    rendered functionally: the first element structurally equal to x is
    replaced by the mutated value x2.  When nothing matches the list is
    returned unchanged (the code only mutates objects that are present). -/
def replaceFirst (x x2 : Node) : List Node → List Node
  | [] => []
  | y :: ys => if y = x then x2 :: ys else y :: replaceFirst x x2 ys

theorem replaceFirst_self (x : Node) : ∀ l : List Node, replaceFirst x x l = l := by
  intro l
  induction l with
  | nil => rfl
  | cons y ys ih =>
    simp only [replaceFirst, ih]
    by_cases h : y = x
    · subst h; simp
    · simp [h]

/-- True when item.get("type") == "group": a group-reference node. -/
def isGrefN (x : Node) : Bool := x.type == some "group"

/-- True when item.get("type") == "section". -/
def isSectionN (x : Node) : Bool := x.type == some "section"

/-- The group table built by YamlToolConfSource._preprocess: group id to
    effective item list, in insertion order. -/
abbrev GMap : Type := List (String × List Node)

/-- Python dictionary lookup on the group table; for duplicate ids the last
    insertion wins, as in a Python dict built by repeated assignment. -/
def gmLookup (m : GMap) (k : String) : Option (List Node) :=
  List.foldl (fun acc p => if p.1 = k then some p.2 else acc) none m

/-- Loop body of the group-map construction in _preprocess: for each group
    definition read group_def["id"] and group_def["items"] (KeyError when
    absent), default enabled to True, and store an empty effective list for
    a disabled group. -/
def buildGroupMapGo (acc : GMap) : List Node → Except Err GMap
  | [] => .ok acc
  | gd :: rest =>
    match gd.id with
    | none => .error .keyError
    | some gid =>
      match gd.sub with
      | none => .error .keyError
      | some gitems =>
        buildGroupMapGo
          (acc ++ [(gid, if gd.enabled.getD true then gitems else [])]) rest

/-- The group-map construction of _preprocess. -/
def buildGroupMap (gl : List Node) : Except Err GMap := buildGroupMapGo [] gl

mutual
/-- replace_groups_in_items applied to one node: the code calls the list
    transform on item.get("items", []), so a node without an "items" key is
    returned unchanged (the detached default list is mutated and dropped),
    and a node with one has that list rewritten in place. -/
def replace_groups_in_item (gm : GMap) : Node → Except Err Node
  | .mk t i n e x s =>
    match s with
    | none => .ok (.mk t i n e x none)
    | some l => (replace_groups_in_items gm l l 0).map (fun p => .mk t i n e x (some p.1))
/-- The loop of replace_groups_in_items over enumerate(items[:]): snap is
    the frozen snapshot being iterated, live the list being mutated, c the
    running current_offset.  A group reference looks up group_map[group_id]
    (KeyError when the id is absent from the table or the reference has no
    "id" key), removes the reference from the live list, and inserts the
    group items at consecutive clamped positions starting at the offset; a
    section is recursed into in place; anything else only advances the
    offset. -/
def replace_groups_in_items (gm : GMap) :
    List Node → List Node → Nat → Except Err (List Node × Nat)
  | [], live, c => .ok (live, c)
  | x :: rest, live, c =>
    if isGrefN x then
      match x.id with
      | none => .error .keyError
      | some gid =>
        match gmLookup gm gid with
        | none => .error .keyError
        | some body =>
          match pyRemove x live with
          | .error e => .error e
          | .ok live1 =>
            replace_groups_in_items gm rest (insertSeq c body live1)
              (c + body.length + 1)
    else if isSectionN x then
      match replace_groups_in_item gm x with
      | .error e => .error e
      | .ok xp => replace_groups_in_items gm rest (replaceFirst x xp live) (c + 1)
    else replace_groups_in_items gm rest live (c + 1)
end

/-- The root dictionary of a toolbox document: the keys "items" and
    "groups" (none when absent) plus abstracted remaining keys. -/
structure DocRoot where
  items : Option (List Node)
  groups : Option (List Node)
  extra : Nat
  deriving DecidableEq

/-- YamlToolConfSource._preprocess: pop the "groups" table (default empty),
    build the group map, and run replace_groups_in_items on the root item
    list (a root without an "items" key is left alone apart from the pop). -/
def preprocess (d : DocRoot) : Except Err DocRoot :=
  match buildGroupMap (d.groups.getD []) with
  | .error e => .error e
  | .ok gm =>
    match d.items with
    | none => .ok { d with groups := none }
    | some l =>
      (replace_groups_in_items gm l l 0).map
        (fun p => { d with groups := none, items := some p.1 })

/-- The expected-version argument of ManagedConf.update: either the
    FORCE_WRITE sentinel object or a previously read hash stamp. -/
inductive Version where
  | force
  | stamp (h : String)
  deriving DecidableEq

/-- The FORCE_WRITE sentinel of managed_conf.py. -/
def FORCE_WRITE : Version := .force

/-- The serialization environment of a ManagedConf store: the md5 hex
    digest, json.dumps and json.loads are abstracted as functions, since
    every property of the store depends only on their being functions of
    the file bytes.  The persisted file itself is threaded explicitly as an
    Option String (none when the file does not exist). -/
structure ManagedConf where
  hash : String → String
  serialize : DocRoot → String
  parse : String → DocRoot

/-- ManagedConf.read: read the persisted bytes (IOError when the file is
    missing), and return the stamp of those exact bytes with the parsed
    document. -/
def ManagedConf.read (M : ManagedConf) (s : Option String) :
    Except Err (String × DocRoot) :=
  match s with
  | none => .error .ioError
  | some c => .ok (M.hash c, M.parse c)

/-- ManagedConf.update: with a non-sentinel expected stamp, re-read the
    current bytes, recompute their stamp, and raise ConcurrentWriteException
    without writing when the stamps differ; otherwise serialize the document
    and replace the file contents in full.  The pair returned is the call
    outcome and the file state afterwards. -/
def ManagedConf.update (M : ManagedConf) (d : DocRoot) (prev : Version)
    (s : Option String) : Except Err Unit × Option String :=
  match prev with
  | .force => (.ok (), some (M.serialize d))
  | .stamp h =>
    match s with
    | none => (.error .ioError, s)
    | some c =>
      if h = M.hash c then (.ok (), some (M.serialize d))
      else (.error .concurrentWrite, s)

/-- ManagedConf.update called with the previous_hash argument omitted: the
    Python signature fills the default FORCE_WRITE. -/
def ManagedConf.updateDefaulted (M : ManagedConf) (d : DocRoot) :
    Option String → Except Err Unit × Option String :=
  M.update d FORCE_WRITE

/-- ManagedConf.ensure_exists: write an empty document when no file exists. -/
def ensureExists (s : Option String) : Option String :=
  match s with
  | none => some "\x7b\x7d"
  | some c => some c

/-- The target dictionary of an action: values of its "group" and "section"
    keys (none when absent), and abstracted remaining keys. -/
structure TargetD where
  group : Option String
  sect : Option String
  extraT : Nat
  deriving DecidableEq

/-- One action dictionary of a handle_actions batch: the "action" key (which
    _handle_action pops in place), the parameter keys the four handlers
    accept, and hasExtra true when the dictionary carries any further key
    (which the Python keyword-argument binding would reject). -/
structure ActionDict where
  action : Option String
  id : Option String
  name : Option String
  item : Option Node
  target : Option TargetD
  hasExtra : Bool
  deriving DecidableEq

/-- ManagedConf._find_with_id: scan one list, comparing item["id"] (KeyError
    when an item scanned has no "id" key) and returning the first match, or
    Python None when the scan falls off the end. -/
def find_with_id : List Node → String → Except Err (Option Node)
  | [], _ => .ok none
  | x :: xs, s =>
    match x.id with
    | none => .error .keyError
    | some j => if j = s then .ok (some x) else find_with_id xs s

/-- ManagedConf._target_to_section: read as_dict["items"] (KeyError when the
    root has no "items" key) and scan only that root list for the id. -/
def target_to_section (d : DocRoot) (s : String) : Except Err (Option Node) :=
  match d.items with
  | none => .error .keyError
  | some l => find_with_id l s

/-- In-place section or group targeting of _add_item: scan as _find_with_id
    does, and append the item (ensuring the "items" key first) to the first
    node whose id matches, returning the rewritten list, or none when the
    scan finds nothing. -/
def addAtFirstId (s : String) (it : Node) : List Node → Except Err (Option (List Node))
  | [] => .ok none
  | x :: xs =>
    match x.id with
    | none => .error .keyError
    | some j =>
      if j = s then .ok (some (x.withSub (some (x.sub.getD [] ++ [it])) :: xs))
      else (addAtFirstId s it xs).map (Option.map (x :: ·))

/-- In-place group targeting of _disable: set enabled = False on the first
    node whose id matches. -/
def disableAtFirstId (s : String) : List Node → Except Err (Option (List Node))
  | [] => .ok none
  | x :: xs =>
    match x.id with
    | none => .error .keyError
    | some j =>
      if j = s then .ok (some (x.withEnabled (some false) :: xs))
      else (disableAtFirstId s xs).map (Option.map (x :: ·))

/-- ManagedConf._add_item: no target appends to the ensured root item list;
    a "group" key targets the group table (as_dict["groups"], KeyError when
    absent); otherwise a "section" key targets the root item list
    (as_dict["items"], KeyError when absent).  A lookup that returns None
    makes _ensure_has_items fail with TypeError, and a target with neither
    key raises the unknown-target exception. -/
def add_item (d : DocRoot) (it : Node) (target : Option TargetD) :
    Except Err DocRoot :=
  match target with
  | none => .ok { d with items := some (d.items.getD [] ++ [it]) }
  | some t =>
    match t.group with
    | some g =>
      match d.groups with
      | none => .error .keyError
      | some gl =>
        match addAtFirstId g it gl with
        | .error e => .error e
        | .ok none => .error .typeError
        | .ok (some gl2) => .ok { d with groups := some gl2 }
    | none =>
      match t.sect with
      | some s =>
        match d.items with
        | none => .error .keyError
        | some l =>
          match addAtFirstId s it l with
          | .error e => .error e
          | .ok none => .error .typeError
          | .ok (some l2) => .ok { d with items := some l2 }
      | none => .error .unknownTarget

/-- ManagedConf._create_group: append a fresh group dictionary with the id
    and an empty item list to the ensured "groups" list. -/
def create_group (d : DocRoot) (i : String) : Except Err DocRoot :=
  .ok { d with
        groups := some (d.groups.getD [] ++
          [Node.mk none (some i) none none 0 (some [])]) }

/-- ManagedConf._create_section: append a fresh section dictionary with the
    type, name, id and an empty item list to the ensured root item list. -/
def create_section (d : DocRoot) (i n : String) : Except Err DocRoot :=
  .ok { d with
        items := some (d.items.getD [] ++
          [Node.mk (some "section") (some i) (some n) none 0 (some [])]) }

/-- ManagedConf._disable: only a "group" target is supported; a target
    without one raises the unknown-target exception, a group lookup that
    returns None fails with TypeError. -/
def disable (d : DocRoot) (t : TargetD) : Except Err DocRoot :=
  match t.group with
  | some g =>
    match d.groups with
    | none => .error .keyError
    | some gl =>
      match disableAtFirstId g gl with
      | .error e => .error e
      | .ok none => .error .typeError
      | .ok (some gl2) => .ok { d with groups := some gl2 }
  | none => .error .unknownTarget

/-- Keyword-argument dispatch of _handle_action after the pop: each handler
    binds the remaining keys of the action dictionary as its keyword
    arguments, so a missing required key or an unexpected key raises
    TypeError before the handler body runs. -/
def dispatchAction (d : DocRoot) (act : String) (a : ActionDict) :
    Except Err DocRoot :=
  if a.hasExtra then .error .typeError
  else if act = "add_item" then
    match a.item, a.id, a.name with
    | some it, none, none => add_item d it a.target
    | _, _, _ => .error .typeError
  else if act = "create_group" then
    match a.id, a.item, a.name, a.target with
    | some i, none, none, none => create_group d i
    | _, _, _, _ => .error .typeError
  else if act = "create_section" then
    match a.id, a.name, a.item, a.target with
    | some i, some n, none, none => create_section d i n
    | _, _, _, _ => .error .typeError
  else if act = "disable" then
    match a.target, a.id, a.item, a.name with
    | some t, none, none, none => disable d t
    | _, _, _, _ => .error .typeError
  else .error .assertionError

/-- ManagedConf._handle_action: pop the "action" key in place (KeyError when
    a previous pass already consumed it), assert it is one of the four known
    names, and dispatch.  The returned dictionary is the action dictionary
    after the pop, mutation the caller keeps. -/
def handle_action (d : DocRoot) (a : ActionDict) :
    Except Err DocRoot × ActionDict :=
  match a.action with
  | none => (.error .keyError, a)
  | some act =>
    let a2 := { a with action := none }
    if act = "add_item" ∨ act = "create_group" ∨ act = "disable" ∨
        act = "create_section" then
      (dispatchAction d act a2, a2)
    else (.error .assertionError, a2)

/-- The for loop of handle_actions over the batch: thread the in-memory
    document and the in-place mutation of each action dictionary; the first
    error aborts the rest of the batch but the mutations done so far stay. -/
def foldActs (d : DocRoot) : List ActionDict →
    Except Err DocRoot × List ActionDict
  | [] => (.ok d, [])
  | a :: rest =>
    match handle_action d a with
    | (.error e, a2) => (.error e, a2 :: rest)
    | (.ok d2, a2) =>
      match foldActs d2 rest with
      | (r, rest2) => (r, a2 :: rest2)

/-- Outcome of one pass of the handle_actions while loop: either the loop
    exits with the given result, or a ConcurrentWriteException was caught
    and the loop restarts from a fresh read. -/
inductive HaStep where
  | done (r : Except Err Unit)
  | retry
  deriving DecidableEq

/-- One pass of the handle_actions while loop: read the current stamp and
    document, run the batch against the in-memory document (keeping the
    in-place mutation of the action dictionaries), and attempt update with
    the stamp read.  intf is what a concurrent writer leaves in the file
    between our read and our update (none when nobody interferes).  Only a
    ConcurrentWriteException turns into a retry; any other error exits the
    loop and propagates. -/
def haOnce (M : ManagedConf) (acts : List ActionDict) (s : Option String)
    (intf : Option String) : HaStep × Option String × List ActionDict :=
  match M.read s with
  | .error e => (.done (.error e), s, acts)
  | .ok (prevHash, d0) =>
    match foldActs d0 acts with
    | (.error e, acts2) =>
      if e = .concurrentWrite then (.retry, s, acts2)
      else (.done (.error e), s, acts2)
    | (.ok d2, acts2) =>
      let sMid := match intf with
        | none => s
        | some c => some c
      match M.update d2 (.stamp prevHash) sMid with
      | (.ok _, s2) => (.done (.ok ()), s2, acts2)
      | (.error .concurrentWrite, s2) => (.retry, s2, acts2)
      | (.error e, s2) => (.done (.error e), s2, acts2)

/-- The unbounded while loop of handle_actions, driven by the finite
    schedule env of interfering concurrent writes: the head of env is what
    a competing writer puts in the file during this pass, and once env is
    exhausted no further interference occurs, so the final pass cannot see
    a stale stamp and its fallback arm is unreachable. -/
def haLoop (M : ManagedConf) (acts : List ActionDict) (s : Option String) :
    List (Option String) → Except Err Unit × Option String × List ActionDict
  | [] =>
    match haOnce M acts s none with
    | (.done r, s2, a2) => (r, s2, a2)
    | (.retry, s2, a2) => (.error .concurrentWrite, s2, a2)
  | intf :: env =>
    match haOnce M acts s intf with
    | (.done r, s2, a2) => (r, s2, a2)
    | (.retry, s2, a2) => haLoop M a2 s2 env

/-- ManagedConf.handle_actions: ensure the file exists, then retry the
    read-apply-update pass until a conflict-free write or a non-conflict
    error. -/
def handle_actions (M : ManagedConf) (acts : List ActionDict)
    (s : Option String) (env : List (Option String)) :
    Except Err Unit × Option String × List ActionDict :=
  haLoop M acts (ensureExists s) env

/-- A Python value carried by a dependency request parameter dictionary:
    None, a string, or abstracted other content. -/
inductive PyVal where
  | null
  | str (s : String)
  | num (n : Nat)
  deriving DecidableEq

/-- A keyword-argument dictionary of views.py, as an association list. -/
abbrev Kwds : Type := List (String × PyVal)

/-- Python dict.pop(key, default): return the value and the dictionary
    without the key. -/
def popD (k : Kwds) (key : String) (dflt : PyVal) : PyVal × Kwds :=
  match k with
  | [] => (dflt, [])
  | (k1, v) :: rest =>
    if k1 = key then (v, rest)
    else
      match popD rest key dflt with
      | (w, rest2) => (w, (k1, v) :: rest2)

/-- DependencyResolversView._parse_dependency_info: pop "name" (defaulting
    to None) and raise RequestParameterMissingException when it is None;
    then pop "version" (default None) and "type" (default "package") and
    return them with the remaining keywords. -/
def parse_dependency_info (kwds : Kwds) :
    Except Err (PyVal × PyVal × PyVal × Kwds) :=
  match popD kwds "name" PyVal.null with
  | (PyVal.null, _) => .error .missingParam
  | (name, k1) =>
    match popD k1 "version" PyVal.null with
    | (version, k2) =>
      match popD k2 "type" (PyVal.str "package") with
      | (ty, k3) => .ok (name, version, ty, k3)

/-- DependencyResolversView._dependency: parse the request first, then hand
    the parsed fields to the dependency manager find_dep, abstracted as the
    function findDep. -/
def dependencyOp (a : Type) (findDep : PyVal → PyVal → PyVal → Kwds → Option Nat → a)
    (index : Option Nat) (kwds : Kwds) : Except Err a :=
  match parse_dependency_info kwds with
  | .error e => .error e
  | .ok (n, v, t, extra) => .ok (findDep n v t extra index)

/-- DependencyResolversView.manager_dependency: delegates to _dependency. -/
def manager_dependency (a : Type)
    (findDep : PyVal → PyVal → PyVal → Kwds → Option Nat → a)
    (index : Option Nat) (kwds : Kwds) : Except Err a :=
  dependencyOp a findDep index kwds

/-- DependencyResolversView.resolver_dependency: the code calls
    _dependency(**kwds) without forwarding the index, so _dependency sees
    its default index None. -/
def resolver_dependency (a : Type)
    (findDep : PyVal → PyVal → PyVal → Kwds → Option Nat → a)
    (_index : Nat) (kwds : Kwds) : Except Err a :=
  dependencyOp a findDep none kwds

/-- One dependency resolver as install_dependency sees it: the
    install_dependency attribute when the resolver has one (hasattr). -/
structure Resolver (a : Type) where
  installFn : Option (PyVal → PyVal → PyVal → Kwds → a)

/-- DependencyResolversView.install_dependency: resolve the indexed
    resolver (IndexError when out of range), raise NotImplemented when it
    cannot install, then parse the payload and call its installer. -/
def install_dependency (a : Type) (rs : List (Resolver a)) (index : Nat)
    (payload : Kwds) : Except Err a :=
  match rs.get? index with
  | none => .error .indexError
  | some r =>
    match r.installFn with
    | none => .error .notImplementedErr
    | some f =>
      match parse_dependency_info payload with
      | .error e => .error e
      | .ok (n, v, t, extra) => .ok (f n v t extra)

/-- A plain item: neither a group reference nor a section.  The inliner
    neither removes, recurses into, nor repositions such an item once
    inserted. -/
def plainN (x : Node) : Bool := !(isGrefN x) && !(isSectionN x)

/-- Every item of the list is plain. -/
def listPlain (l : List Node) : Bool := l.all plainN

/-- Every effective item list of the group table is plain. -/
def gmPlain (gm : GMap) : Bool := gm.all (fun p => listPlain p.2)

mutual
/-- Number of group-reference nodes with the given group id in a node,
    counted through the section nesting the inliner reaches. -/
def grefCountN (g : String) : Node → Nat
  | .mk t i _ _ _ none =>
    if t == some "group" then (if i == some g then 1 else 0) else 0
  | .mk t i _ _ _ (some l) =>
    if t == some "group" then (if i == some g then 1 else 0)
    else if t == some "section" then grefCountL g l
    else 0
/-- List version of grefCountN. -/
def grefCountL (g : String) : List Node → Nat
  | [] => 0
  | x :: xs => grefCountN g x + grefCountL g xs
end

mutual
/-- Number of nodes in an item, counted through section nesting. -/
def totalN : Node → Nat
  | .mk _ _ _ _ _ none => 1
  | .mk t _ _ _ _ (some l) =>
    1 + (if t == some "section" then totalL l else 0)
/-- List version of totalN. -/
def totalL : List Node → Nat
  | [] => 0
  | x :: xs => totalN x + totalL xs
end

mutual
/-- Number of group-reference nodes (of any group) the inliner removes,
    counted through section nesting. -/
def remN : Node → Nat
  | .mk t _ _ _ _ none => if t == some "group" then 1 else 0
  | .mk t _ _ _ _ (some l) =>
    if t == some "group" then 1
    else if t == some "section" then remL l
    else 0
/-- List version of remN. -/
def remL : List Node → Nat
  | [] => 0
  | x :: xs => remN x + remL xs
end

mutual
/-- Number of items the inliner inserts for the group references of a node:
    the length of the effective item list of each referenced group, counted
    through section nesting. -/
def insN (gm : GMap) : Node → Nat
  | .mk t i _ _ _ none =>
    if t == some "group" then
      (match i with
       | none => 0
       | some gid => ((gmLookup gm gid).getD []).length)
    else 0
  | .mk t i _ _ _ (some l) =>
    if t == some "group" then
      (match i with
       | none => 0
       | some gid => ((gmLookup gm gid).getD []).length)
    else if t == some "section" then insL gm l
    else 0
/-- List version of insN. -/
def insL (gm : GMap) : List Node → Nat
  | [] => 0
  | x :: xs => insN gm x + insL gm xs
end

mutual
/-- No group-reference node anywhere in the node, at any nesting depth. -/
def noGrefsN : Node → Bool
  | .mk t _ _ _ _ none => !(t == some "group")
  | .mk t _ _ _ _ (some l) => !(t == some "group") && noGrefsL l
/-- List version of noGrefsN. -/
def noGrefsL : List Node → Bool
  | [] => true
  | x :: xs => noGrefsN x && noGrefsL xs
end

mutual
/-- Every group reference the inliner reaches carries an "id" key naming a
    group present in the table. -/
def refsDefinedN (gm : GMap) : Node → Bool
  | .mk t i _ _ _ none =>
    if t == some "group" then
      (match i with
       | none => false
       | some gid => (gmLookup gm gid).isSome)
    else true
  | .mk t i _ _ _ (some l) =>
    if t == some "group" then
      (match i with
       | none => false
       | some gid => (gmLookup gm gid).isSome)
    else if t == some "section" then refsDefinedL gm l
    else true
/-- List version of refsDefinedN. -/
def refsDefinedL (gm : GMap) : List Node → Bool
  | [] => true
  | x :: xs => refsDefinedN gm x && refsDefinedL gm xs
end

mutual
/-- Modelled from the spec: resolving a section target is specified as a
    depth-first search of the full tree for a Section node whose id
    attribute matches; the source under src has no such whole-tree search,
    so this definition follows the words of the specification and is
    compared against the single-level scan of the source. -/
def specSectionExistsN (s : String) : Node → Bool
  | .mk t i _ _ _ none => t == some "section" && i == some s
  | .mk t i _ _ _ (some l) =>
    (t == some "section" && i == some s) || specSectionExistsL s l
/-- List version of specSectionExistsN. -/
def specSectionExistsL (s : String) : List Node → Bool
  | [] => false
  | x :: xs => specSectionExistsN s x || specSectionExistsL s xs
end

/-- Sum of a node measure over a list; every count above restricted to a
    list is of this shape, which the splice lemmas below exploit. -/
def nsum (f : Node → Nat) : List Node → Nat
  | [] => 0
  | x :: xs => f x + nsum f xs

/-- Occurrences of a value in a list, as a node measure sum. -/
def cntL (v : Node) (l : List Node) : Nat :=
  nsum (fun y => if y = v then 1 else 0) l

theorem grefCountL_eq_nsum (g : String) (l : List Node) :
    grefCountL g l = nsum (grefCountN g) l := by
  induction l with
  | nil => rfl
  | cons x xs ih => simp [grefCountL, nsum, ih]

theorem totalL_eq_nsum (l : List Node) : totalL l = nsum totalN l := by
  induction l with
  | nil => rfl
  | cons x xs ih => simp [totalL, nsum, ih]

theorem remL_eq_nsum (l : List Node) : remL l = nsum remN l := by
  induction l with
  | nil => rfl
  | cons x xs ih => simp [remL, nsum, ih]

theorem insL_eq_nsum (gm : GMap) (l : List Node) : insL gm l = nsum (insN gm) l := by
  induction l with
  | nil => rfl
  | cons x xs ih => simp [insL, nsum, ih]

theorem nsum_append (f : Node → Nat) (l1 l2 : List Node) :
    nsum f (l1 ++ l2) = nsum f l1 + nsum f l2 := by
  induction l1 with
  | nil => simp [nsum]
  | cons x xs ih => simp [nsum, ih]; omega

theorem nsum_erase (f : Node → Nat) (x : Node) (l : List Node) (h : x ∈ l) :
    f x + nsum f (l.erase x) = nsum f l := by
  induction l with
  | nil => cases h
  | cons y ys ih =>
    by_cases hy : y = x
    · subst hy
      simp [List.erase_cons_head, nsum]
    · rcases List.mem_cons.mp h with h1 | h2
      · exact absurd h1.symm hy
      · have : (y :: ys).erase x = y :: ys.erase x := by
          simp [List.erase_cons, beq_iff_eq, hy]
        rw [this]
        simp only [nsum]
        rw [← ih h2]
        omega

theorem nsum_pyInsert (f : Node → Nat) (i : Nat) (b : Node) (l : List Node) :
    nsum f (pyInsert i b l) = f b + nsum f l := by
  unfold pyInsert
  rw [nsum_append]
  simp only [nsum]
  conv_rhs => rw [← List.take_append_drop i l, nsum_append]
  omega

theorem nsum_insertSeq (f : Node → Nat) (body : List Node) :
    ∀ (c : Nat) (l : List Node), nsum f (insertSeq c body l) = nsum f body + nsum f l := by
  induction body with
  | nil => intro c l; simp [insertSeq, nsum]
  | cons b bs ih =>
    intro c l
    simp only [insertSeq, nsum]
    rw [ih, nsum_pyInsert]
    omega

theorem nsum_replaceFirst (f : Node → Nat) (x x2 : Node) (l : List Node) (h : x ∈ l) :
    nsum f (replaceFirst x x2 l) + f x = nsum f l + f x2 := by
  induction l with
  | nil => cases h
  | cons y ys ih =>
    by_cases hy : y = x
    · subst hy
      simp [replaceFirst, nsum]
      omega
    · rcases List.mem_cons.mp h with h1 | h2
      · exact absurd h1.symm hy
      · simp only [replaceFirst, if_neg hy, nsum]
        have := ih h2
        omega

theorem cntL_pos_iff_mem (v : Node) (l : List Node) : 0 < cntL v l ↔ v ∈ l := by
  induction l with
  | nil => simp [cntL, nsum]
  | cons y ys ih =>
    simp only [cntL, nsum] at *
    by_cases hy : y = v
    · subst hy; simp
    · simp only [hy, if_false, Nat.zero_add, ih, List.mem_cons]
      constructor
      · exact Or.inr
      · rintro (h1 | h2)
        · exact absurd h1.symm hy
        · exact h2

theorem cntL_cons (v y : Node) (l : List Node) :
    cntL v (y :: l) = (if y = v then 1 else 0) + cntL v l := rfl

theorem pyRemove_mem (x : Node) (l : List Node) (h : x ∈ l) :
    pyRemove x l = .ok (l.erase x) := by
  induction l with
  | nil => cases h
  | cons y ys ih =>
    by_cases hy : y = x
    · subst hy
      simp [pyRemove, List.erase_cons_head]
    · rcases List.mem_cons.mp h with h1 | h2
      · exact absurd h1.symm hy
      · have he : (y :: ys).erase x = y :: ys.erase x := by
          simp [List.erase_cons, beq_iff_eq, hy]
        simp [pyRemove, hy, ih h2, he, Except.map]

theorem noGrefsN_not_gref (x : Node) (h : noGrefsN x = true) : isGrefN x = false := by
  cases x with
  | mk t i n e ex s =>
    cases s with
    | none =>
      simp only [noGrefsN, Bool.not_eq_true'] at h
      simpa [isGrefN, Node.type] using h
    | some l =>
      simp only [noGrefsN, Bool.and_eq_true, Bool.not_eq_true'] at h
      simpa [isGrefN, Node.type] using h.1

mutual
theorem replace_groups_in_item_noGrefs (gm : GMap) :
    ∀ x : Node, noGrefsN x = true → replace_groups_in_item gm x = .ok x
  | .mk t i n e ex s, h => by
    cases s with
    | none => simp [replace_groups_in_item]
    | some l =>
      have hl : noGrefsL l = true := by
        simp only [noGrefsN, Bool.and_eq_true] at h
        exact h.2
      rw [replace_groups_in_item]
      rw [replace_groups_in_items_noGrefs gm l l 0 hl]
      simp [Except.map]
theorem replace_groups_in_items_noGrefs (gm : GMap) :
    ∀ (snap live : List Node) (c : Nat), noGrefsL snap = true →
      replace_groups_in_items gm snap live c = .ok (live, c + snap.length)
  | [], live, c, _ => by simp [replace_groups_in_items]
  | x :: rest, live, c, h => by
    have hx : noGrefsN x = true := by
      simp only [noGrefsL, Bool.and_eq_true] at h
      exact h.1
    have hrest : noGrefsL rest = true := by
      simp only [noGrefsL, Bool.and_eq_true] at h
      exact h.2
    have hlen : c + 1 + rest.length = c + (x :: rest).length := by
      simp only [List.length_cons]
      omega
    rw [replace_groups_in_items]
    rw [noGrefsN_not_gref x hx]
    by_cases hs : isSectionN x = true
    · simp only [Bool.false_eq_true, if_false, hs, if_true]
      rw [replace_groups_in_item_noGrefs gm x hx]
      simp only [replaceFirst_self]
      rw [replace_groups_in_items_noGrefs gm rest live (c + 1) hrest, hlen]
    · simp only [Bool.false_eq_true, if_false, hs]
      rw [replace_groups_in_items_noGrefs gm rest live (c + 1) hrest, hlen]
end

/-- C6.  Running the group-inlining transform on a document with no
    group-reference node at any nesting depth and no groups table returns
    the document unchanged. -/
theorem c6_inline_noop (d : DocRoot) (hg : d.groups = none)
    (hn : noGrefsL (d.items.getD []) = true) : preprocess d = .ok d := by
  obtain ⟨di, dg, dx⟩ := d
  simp only at hg
  subst hg
  cases di with
  | none => simp [preprocess, buildGroupMap, buildGroupMapGo]
  | some l =>
    simp only [Option.getD_some] at hn
    simp only [preprocess, Option.getD_none, buildGroupMap, buildGroupMapGo]
    rw [replace_groups_in_items_noGrefs [] l l 0 hn]
    simp [Except.map]

/-- Witness for C6 at a concrete document with a nested section and no
    group references. -/
theorem c6_inline_noop_witness :
    preprocess ⟨some [Node.mk (some "tool") (some "t1") none none 0 none,
      Node.mk (some "section") (some "s1") (some "S") none 0
        (some [Node.mk (some "tool") (some "t2") none none 0 none])], none, 7⟩ =
    .ok ⟨some [Node.mk (some "tool") (some "t1") none none 0 none,
      Node.mk (some "section") (some "s1") (some "S") none 0
        (some [Node.mk (some "tool") (some "t2") none none 0 none])], none, 7⟩ :=
  c6_inline_noop _ (by rfl) (by decide)

/-- The last group definition in the groups list whose "id" key equals k:
    the definition whose effective item list survives in the group table. -/
def glLastDef (k : String) : List Node → Option Node
  | [] => none
  | gd :: rest =>
    match glLastDef k rest with
    | some r => some r
    | none => if gd.id == some k then some gd else none

theorem gmLookup_append_single (acc : GMap) (p : String) (q : List Node) (k : String) :
    gmLookup (acc ++ [(p, q)]) k = if p = k then some q else gmLookup acc k := by
  unfold gmLookup
  rw [List.foldl_append]
  simp

theorem buildGroupMapGo_lookup : ∀ (gl : List Node) (acc gm : GMap) (k : String),
    buildGroupMapGo acc gl = .ok gm →
    gmLookup gm k = (match glLastDef k gl with
      | some gd => some (if gd.enabled.getD true then gd.sub.getD [] else [])
      | none => gmLookup acc k) := by
  intro gl
  induction gl with
  | nil =>
    intro acc gm k h
    simp only [buildGroupMapGo] at h
    cases h
    rfl
  | cons gd rest ih =>
    intro acc gm k h
    simp only [buildGroupMapGo] at h
    cases hid : gd.id with
    | none => rw [hid] at h; cases h
    | some gid =>
      rw [hid] at h
      cases hsub : gd.sub with
      | none => rw [hsub] at h; cases h
      | some gitems =>
        rw [hsub] at h
        have step := ih _ gm k h
        rw [step]
        simp only [glLastDef]
        cases hlast : glLastDef k rest with
        | some r => simp
        | none =>
          simp only []
          rw [gmLookup_append_single]
          by_cases hk : gid = k
          · subst hk
            simp [hid, hsub]
          · have : (gd.id == some k) = false := by
              simp [hid, hk]
            simp [this, hk]

theorem gmLookup_mem : ∀ (m : GMap) (k : String) (v : List Node),
    gmLookup m k = some v → (k, v) ∈ m := by
  have go : ∀ (m : GMap) (acc : Option (List Node)) (k : String) (v : List Node),
      List.foldl (fun acc2 p => if p.1 = k then some p.2 else acc2) acc m = some v →
      (k, v) ∈ m ∨ acc = some v := by
    intro m
    induction m with
    | nil => intro acc k v h; exact Or.inr h
    | cons p rest ih =>
      intro acc k v h
      simp only [List.foldl_cons] at h
      rcases ih _ k v h with h1 | h2
      · exact Or.inl (List.mem_cons_of_mem _ h1)
      · obtain ⟨p1, p2⟩ := p
        by_cases hk : p1 = k
        · simp only [hk, if_pos] at h2
          have h3 : p2 = v := by injection h2
          left
          rw [List.mem_cons]
          left
          rw [hk, h3]
        · simp only [if_neg hk] at h2
          exact Or.inr h2
  intro m k v h
  rcases go m none k v h with h1 | h2
  · exact h1
  · cases h2

theorem gmPlain_body (gm : GMap) (k : String) (body : List Node)
    (hp : gmPlain gm = true) (hlk : gmLookup gm k = some body) :
    listPlain body = true := by
  have hmem := gmLookup_mem gm k body hlk
  unfold gmPlain at hp
  rw [List.all_eq_true] at hp
  exact hp (k, body) hmem

theorem plainN_grefCountN (g : String) (b : Node) (h : plainN b = true) :
    grefCountN g b = 0 := by
  cases b with
  | mk t i n e ex s =>
    simp only [plainN, isGrefN, isSectionN, Node.type, Bool.and_eq_true,
      Bool.not_eq_true'] at h
    cases s with
    | none => simp [grefCountN, h.1]
    | some l => simp [grefCountN, h.1, h.2]

theorem plainN_totalN (b : Node) (h : plainN b = true) : totalN b = 1 := by
  cases b with
  | mk t i n e ex s =>
    simp only [plainN, isGrefN, isSectionN, Node.type, Bool.and_eq_true,
      Bool.not_eq_true'] at h
    cases s with
    | none => simp [totalN]
    | some l => simp [totalN, h.2]

theorem listPlain_grefCountL (g : String) : ∀ body : List Node,
    listPlain body = true → grefCountL g body = 0 := by
  intro body
  induction body with
  | nil => intro _; rfl
  | cons b bs ih =>
    intro h
    simp only [listPlain, List.all_cons, Bool.and_eq_true] at h
    have hb := plainN_grefCountN g b h.1
    have hbs := ih (by simp [listPlain, h.2])
    simp [grefCountL, hb, hbs]

theorem listPlain_totalL : ∀ body : List Node,
    listPlain body = true → totalL body = body.length := by
  intro body
  induction body with
  | nil => intro _; rfl
  | cons b bs ih =>
    intro h
    simp only [listPlain, List.all_cons, Bool.and_eq_true] at h
    have hb := plainN_totalN b h.1
    have hbs := ih (by simp [listPlain, h.2])
    simp [totalL, hb, hbs]
    omega

theorem gref_exists_body (gm : GMap) (x : Node) (hg : isGrefN x = true)
    (hd : refsDefinedN gm x = true) :
    ∃ gid body, x.id = some gid ∧ gmLookup gm gid = some body := by
  cases x with
  | mk t i n e ex s =>
    simp only [isGrefN, Node.type, beq_iff_eq] at hg
    subst hg
    cases s with
    | none =>
      simp only [refsDefinedN, if_pos] at hd
      cases i with
      | none => simp at hd
      | some gid =>
        simp only [] at hd
        rcases Option.isSome_iff_exists.mp hd with ⟨body, hb⟩
        exact ⟨gid, body, rfl, hb⟩
    | some l =>
      simp only [refsDefinedN, if_pos] at hd
      cases i with
      | none => simp at hd
      | some gid =>
        simp only [] at hd
        rcases Option.isSome_iff_exists.mp hd with ⟨body, hb⟩
        exact ⟨gid, body, rfl, hb⟩

theorem totalN_gref (x : Node) (hg : isGrefN x = true) : totalN x = 1 := by
  cases x with
  | mk t i n e ex s =>
    simp only [isGrefN, Node.type, beq_iff_eq] at hg
    subst hg
    cases s with
    | none => rfl
    | some l => simp [totalN]

theorem remN_gref (x : Node) (hg : isGrefN x = true) : remN x = 1 := by
  cases x with
  | mk t i n e ex s =>
    simp only [isGrefN, Node.type, beq_iff_eq] at hg
    subst hg
    cases s with
    | none => rfl
    | some l => simp [remN]

theorem insN_gref (gm : GMap) (x : Node) (gid : String) (hg : isGrefN x = true)
    (hid : x.id = some gid) :
    insN gm x = ((gmLookup gm gid).getD []).length := by
  cases x with
  | mk t i n e ex s =>
    simp only [isGrefN, Node.type, beq_iff_eq] at hg
    simp only [Node.id] at hid
    subst hg
    subst hid
    cases s with
    | none => simp [insN]
    | some l => simp [insN]

theorem otherN_measures (gm : GMap) (g : String) (x : Node)
    (h1 : isGrefN x = false) (h2 : isSectionN x = false) :
    grefCountN g x = 0 ∧ remN x = 0 ∧ insN gm x = 0 := by
  cases x with
  | mk t i n e ex s =>
    simp only [isGrefN, isSectionN, Node.type] at h1 h2
    cases s with
    | none => simp [grefCountN, remN, insN, h1]
    | some l => simp [grefCountN, remN, insN, h1, h2]

theorem cntL_insertSeq (v : Node) (body : List Node) (c : Nat) (l : List Node) :
    cntL v (insertSeq c body l) = cntL v body + cntL v l := by
  unfold cntL
  exact nsum_insertSeq _ body c l

theorem cntL_erase (v x : Node) (l : List Node) (h : x ∈ l) :
    (if x = v then 1 else 0) + cntL v (l.erase x) = cntL v l := by
  unfold cntL
  exact nsum_erase (fun y => if y = v then 1 else 0) x l h

theorem cntL_replaceFirst (v x x2 : Node) (l : List Node) (h : x ∈ l) :
    cntL v (replaceFirst x x2 l) + (if x = v then 1 else 0) =
      cntL v l + (if x2 = v then 1 else 0) := by
  unfold cntL
  exact nsum_replaceFirst (fun y => if y = v then 1 else 0) x x2 l h

theorem grefCountL_insertSeq (g : String) (body : List Node) (c : Nat) (l : List Node) :
    grefCountL g (insertSeq c body l) = grefCountL g body + grefCountL g l := by
  rw [grefCountL_eq_nsum, grefCountL_eq_nsum, grefCountL_eq_nsum]
  exact nsum_insertSeq _ body c l

theorem grefCountL_erase (g : String) (x : Node) (l : List Node) (h : x ∈ l) :
    grefCountN g x + grefCountL g (l.erase x) = grefCountL g l := by
  rw [grefCountL_eq_nsum, grefCountL_eq_nsum]
  exact nsum_erase _ x l h

theorem grefCountL_replaceFirst (g : String) (x x2 : Node) (l : List Node) (h : x ∈ l) :
    grefCountL g (replaceFirst x x2 l) + grefCountN g x =
      grefCountL g l + grefCountN g x2 := by
  rw [grefCountL_eq_nsum, grefCountL_eq_nsum]
  exact nsum_replaceFirst _ x x2 l h

theorem totalL_insertSeq (body : List Node) (c : Nat) (l : List Node) :
    totalL (insertSeq c body l) = totalL body + totalL l := by
  rw [totalL_eq_nsum, totalL_eq_nsum, totalL_eq_nsum]
  exact nsum_insertSeq _ body c l

theorem totalL_erase (x : Node) (l : List Node) (h : x ∈ l) :
    totalN x + totalL (l.erase x) = totalL l := by
  rw [totalL_eq_nsum, totalL_eq_nsum]
  exact nsum_erase _ x l h

theorem totalL_replaceFirst (x x2 : Node) (l : List Node) (h : x ∈ l) :
    totalL (replaceFirst x x2 l) + totalN x = totalL l + totalN x2 := by
  rw [totalL_eq_nsum, totalL_eq_nsum]
  exact nsum_replaceFirst _ x x2 l h

mutual
theorem replace_groups_in_item_inv (gm : GMap) (g : String) :
    ∀ x : Node, gmPlain gm = true → isSectionN x = true →
      refsDefinedN gm x = true →
      ∃ xp, replace_groups_in_item gm x = .ok xp ∧ xp.type = x.type ∧
        grefCountN g xp = 0 ∧ totalN xp + remN x = totalN x + insN gm x
  | .mk t i n e ex none, hp, hs, hd => by
    have ht : t = some "section" := by simpa [isSectionN, Node.type] using hs
    subst ht
    refine ⟨.mk (some "section") i n e ex none, by simp [replace_groups_in_item], rfl, ?_, ?_⟩
    · simp [grefCountN]
    · simp [remN, insN]
  | .mk t i n e ex (some l), hp, hs, hd => by
    have ht : t = some "section" := by simpa [isSectionN, Node.type] using hs
    subst ht
    have hdl : refsDefinedL gm l = true := by
      simpa [refsDefinedN] using hd
    obtain ⟨live2, c2, heq, hgr, htot⟩ :=
      replace_groups_in_items_inv gm g l l 0 hp hdl (fun v => le_refl _)
    refine ⟨.mk (some "section") i n e ex (some live2), ?_, rfl, ?_, ?_⟩
    · rw [replace_groups_in_item, heq]
      simp [Except.map]
    · simp only [grefCountN]
      simp only [show ((some "section" : Option String) == some "group") = false by decide,
        Bool.false_eq_true, if_false,
        show ((some "section" : Option String) == some "section") = true by decide, if_true]
      omega
    · simp only [totalN, remN, insN]
      simp only [show ((some "section" : Option String) == some "group") = false by decide,
        Bool.false_eq_true, if_false,
        show ((some "section" : Option String) == some "section") = true by decide, if_true]
      omega
theorem replace_groups_in_items_inv (gm : GMap) (g : String) :
    ∀ (snap live : List Node) (c : Nat),
      gmPlain gm = true →
      refsDefinedL gm snap = true →
      (∀ v : Node, cntL v snap ≤ cntL v live) →
      ∃ live2 c2, replace_groups_in_items gm snap live c = .ok (live2, c2) ∧
        grefCountL g live2 + grefCountL g snap = grefCountL g live ∧
        totalL live2 + remL snap = totalL live + insL gm snap
  | [], live, c, _, _, _ =>
    ⟨live, c, by simp [replace_groups_in_items], by simp [grefCountL],
      by simp [remL, insL]⟩
  | x :: rest, live, c, hp, hd, hcnt => by
    have hdx : refsDefinedN gm x = true := by
      simp only [refsDefinedL, Bool.and_eq_true] at hd
      exact hd.1
    have hdrest : refsDefinedL gm rest = true := by
      simp only [refsDefinedL, Bool.and_eq_true] at hd
      exact hd.2
    have hxcnt := hcnt x
    rw [cntL_cons, if_pos rfl] at hxcnt
    have hxmem : x ∈ live := (cntL_pos_iff_mem x live).mp (by omega)
    rw [replace_groups_in_items]
    cases hgx : isGrefN x with
    | true =>
      obtain ⟨gid, body, hid, hlk⟩ := gref_exists_body gm x hgx hdx
      have hrem := pyRemove_mem x live hxmem
      simp only [if_pos, hid, hlk, hrem]
      have hcnt2 : ∀ v, cntL v rest ≤ cntL v (insertSeq c body (live.erase x)) := by
        intro v
        have h1 := hcnt v
        rw [cntL_cons] at h1
        have he := cntL_erase v x live hxmem
        have hi := cntL_insertSeq v body c (live.erase x)
        omega
      obtain ⟨live2, c2, heq, hgr, htot⟩ :=
        replace_groups_in_items_inv gm g rest (insertSeq c body (live.erase x))
          (c + body.length + 1) hp hdrest hcnt2
      refine ⟨live2, c2, heq, ?_, ?_⟩
      · have e1 := grefCountL_insertSeq g body c (live.erase x)
        have e2 := grefCountL_erase g x live hxmem
        have e3 : grefCountL g body = 0 :=
          listPlain_grefCountL g body (gmPlain_body gm gid body hp hlk)
        simp only [grefCountL]
        omega
      · have t1 := totalL_insertSeq body c (live.erase x)
        have t2 := totalL_erase x live hxmem
        have t3 : totalL body = body.length :=
          listPlain_totalL body (gmPlain_body gm gid body hp hlk)
        have t4 := totalN_gref x hgx
        have t5 := remN_gref x hgx
        have t6 : insN gm x = body.length := by
          rw [insN_gref gm x gid hgx hid, hlk]
          simp
        simp only [remL, insL]
        omega
    | false =>
      simp only [hgx, Bool.false_eq_true, if_false]
      cases hsx : isSectionN x with
      | true =>
        obtain ⟨xp, hxp, htype, hgxp, htotxp⟩ :=
          replace_groups_in_item_inv gm g x hp hsx hdx
        simp only [if_pos, hxp]
        have hcnt2 : ∀ v, cntL v rest ≤ cntL v (replaceFirst x xp live) := by
          intro v
          have h1 := hcnt v
          rw [cntL_cons] at h1
          have hr := cntL_replaceFirst v x xp live hxmem
          omega
        obtain ⟨live2, c2, heq, hgr, htot⟩ :=
          replace_groups_in_items_inv gm g rest (replaceFirst x xp live) (c + 1)
            hp hdrest hcnt2
        refine ⟨live2, c2, heq, ?_, ?_⟩
        · have e1 := grefCountL_replaceFirst g x xp live hxmem
          simp only [grefCountL]
          omega
        · have t1 := totalL_replaceFirst x xp live hxmem
          simp only [remL, insL]
          omega
      | false =>
        simp only [hsx, Bool.false_eq_true, if_false]
        obtain ⟨m1, m2, m3⟩ := otherN_measures gm g x hgx hsx
        have hcnt2 : ∀ v, cntL v rest ≤ cntL v live := by
          intro v
          have h1 := hcnt v
          rw [cntL_cons] at h1
          omega
        obtain ⟨live2, c2, heq, hgr, htot⟩ :=
          replace_groups_in_items_inv gm g rest live (c + 1) hp hdrest hcnt2
        refine ⟨live2, c2, heq, ?_, ?_⟩
        · simp only [grefCountL]
          omega
        · simp only [remL, insL]
          omega
end

/-- C5.  For a group declared with enabled equal to false, inlining a tree
    whose group references are all defined (the effective bodies being plain
    items) raises no error, leaves no group-reference node anywhere in the
    result, and the node-count identity shows each reference contributed the
    length of its effective body, which for the disabled group is the empty
    list: its references are removed and zero items are inserted in their
    place. -/
theorem c5_disabled_group_contributes_nothing
    (d : DocRoot) (gl l : List Node) (G : String) (gdef : Node) (gm : GMap)
    (hgroups : d.groups = some gl) (hitems : d.items = some l)
    (hbuild : buildGroupMap gl = .ok gm)
    (hplain : gmPlain gm = true)
    (hdef : refsDefinedL gm l = true)
    (hlast : glLastDef G gl = some gdef)
    (hdis : gdef.enabled = some false) :
    gmLookup gm G = some [] ∧
    ∃ l2 c2, preprocess d = .ok ⟨some l2, none, d.extra⟩ ∧
      replace_groups_in_items gm l l 0 = .ok (l2, c2) ∧
      grefCountL G l2 = 0 ∧
      totalL l2 + remL l = totalL l + insL gm l := by
  have hGlookup : gmLookup gm G = some [] := by
    have hb := buildGroupMapGo_lookup gl [] gm G hbuild
    rw [hlast] at hb
    simp only [] at hb
    rw [hb, hdis]
    simp
  refine ⟨hGlookup, ?_⟩
  obtain ⟨l2, c2, heq, hgr, htot⟩ :=
    replace_groups_in_items_inv gm G l l 0 hplain hdef (fun v => le_refl _)
  refine ⟨l2, c2, ?_, heq, by omega, htot⟩
  unfold preprocess
  rw [hgroups]
  simp only [Option.getD_some]
  rw [hbuild, hitems]
  simp only []
  rw [heq]
  simp [Except.map]

/-- Witness for C5: group gd is declared disabled with a one-item body,
    group ge is enabled; gd is referenced once at the root and once inside a
    nested section, ge once inside the section. -/
theorem c5_disabled_group_witness :
    gmLookup [("gd", []), ("ge", [Node.mk (some "tool") (some "x") none none 0 none])]
      "gd" = some [] ∧
    ∃ l2 c2,
      preprocess ⟨some [Node.mk (some "group") (some "gd") none none 0 none,
          Node.mk (some "section") (some "s1") none none 0
            (some [Node.mk (some "group") (some "gd") none none 0 none,
                   Node.mk (some "group") (some "ge") none none 0 none]),
          Node.mk (some "tool") (some "y") none none 0 none],
        some [Node.mk none (some "gd") none (some false) 0
                (some [Node.mk (some "tool") (some "w") none none 0 none]),
              Node.mk none (some "ge") none none 0
                (some [Node.mk (some "tool") (some "x") none none 0 none])], 3⟩ =
        .ok ⟨some l2, none, 3⟩ ∧
      replace_groups_in_items
        [("gd", []), ("ge", [Node.mk (some "tool") (some "x") none none 0 none])]
        [Node.mk (some "group") (some "gd") none none 0 none,
         Node.mk (some "section") (some "s1") none none 0
           (some [Node.mk (some "group") (some "gd") none none 0 none,
                  Node.mk (some "group") (some "ge") none none 0 none]),
         Node.mk (some "tool") (some "y") none none 0 none]
        [Node.mk (some "group") (some "gd") none none 0 none,
         Node.mk (some "section") (some "s1") none none 0
           (some [Node.mk (some "group") (some "gd") none none 0 none,
                  Node.mk (some "group") (some "ge") none none 0 none]),
         Node.mk (some "tool") (some "y") none none 0 none] 0 = .ok (l2, c2) ∧
      grefCountL "gd" l2 = 0 ∧
      totalL l2 +
        remL [Node.mk (some "group") (some "gd") none none 0 none,
          Node.mk (some "section") (some "s1") none none 0
            (some [Node.mk (some "group") (some "gd") none none 0 none,
                   Node.mk (some "group") (some "ge") none none 0 none]),
          Node.mk (some "tool") (some "y") none none 0 none] =
      totalL [Node.mk (some "group") (some "gd") none none 0 none,
          Node.mk (some "section") (some "s1") none none 0
            (some [Node.mk (some "group") (some "gd") none none 0 none,
                   Node.mk (some "group") (some "ge") none none 0 none]),
          Node.mk (some "tool") (some "y") none none 0 none] +
        insL [("gd", []), ("ge", [Node.mk (some "tool") (some "x") none none 0 none])]
          [Node.mk (some "group") (some "gd") none none 0 none,
           Node.mk (some "section") (some "s1") none none 0
             (some [Node.mk (some "group") (some "gd") none none 0 none,
                    Node.mk (some "group") (some "ge") none none 0 none]),
           Node.mk (some "tool") (some "y") none none 0 none] :=
  c5_disabled_group_contributes_nothing _ _ _ "gd"
    (Node.mk none (some "gd") none (some false) 0
      (some [Node.mk (some "tool") (some "w") none none 0 none])) _
    rfl rfl (by decide) (by decide) (by decide) (by decide) rfl

/-- C4 evaluation at the failing input: groups gd (disabled, body [w]) and
    g1 (enabled, body [x]); tree [reference gd, reference g1, leaf y].  The
    claimed in-place splice yields [x, y]; removing the disabled reference
    shrinks the live list while current_offset still advances, so the code
    inserts x after y and produces [y, x]. -/
theorem c4_splice_misorders_after_preceding_reference :
    preprocess ⟨some [Node.mk (some "group") (some "gd") none none 0 none,
        Node.mk (some "group") (some "g1") none none 0 none,
        Node.mk (some "tool") (some "y") none none 0 none],
      some [Node.mk none (some "gd") none (some false) 0
              (some [Node.mk (some "tool") (some "w") none none 0 none]),
            Node.mk none (some "g1") none none 0
              (some [Node.mk (some "tool") (some "x") none none 0 none])], 0⟩ =
      .ok ⟨some [Node.mk (some "tool") (some "y") none none 0 none,
                 Node.mk (some "tool") (some "x") none none 0 none], none, 0⟩ ∧
    [Node.mk (some "tool") (some "y") none none 0 none,
     Node.mk (some "tool") (some "x") none none 0 none] ≠
      [Node.mk (some "tool") (some "x") none none 0 none,
       Node.mk (some "tool") (some "y") none none 0 none] :=
  ⟨by decide, by decide⟩

/-- A concrete serialization environment for evaluating store traces: the
    stamp of a file is the file itself, and parsing yields the empty root
    dictionary. -/
def idMC : ManagedConf where
  hash := fun s => s
  serialize := fun _ => "serialized"
  parse := fun _ => ⟨none, none, 0⟩

/-- C1.  An update whose expected stamp is not the sentinel and differs
    from the stamp of the currently persisted bytes raises
    ConcurrentWriteException and leaves the persisted content untouched,
    whatever document was being written. -/
theorem c1_stale_stamp_conflicts_no_write (M : ManagedConf) (h c : String)
    (d : DocRoot) (hne : h ≠ M.hash c) :
    M.update d (.stamp h) (some c) = (.error .concurrentWrite, some c) := by
  unfold ManagedConf.update
  simp only []
  rw [if_neg hne]

/-- Witness for C1 at a concrete store state and stale stamp. -/
theorem c1_stale_stamp_witness :
    idMC.update ⟨none, none, 0⟩ (.stamp "stale") (some "current") =
      (.error .concurrentWrite, some "current") :=
  c1_stale_stamp_conflicts_no_write idMC "stale" "current" ⟨none, none, 0⟩ (by decide)

/-- C7.  An update with the FORCE_WRITE sentinel succeeds from any store
    state, and a subsequent read returns the stamp of the serialized bytes
    of the document together with the parse of those bytes (the document
    modulo the serialization round trip). -/
theorem c7_force_write_then_read (M : ManagedConf) (s : Option String) (d : DocRoot) :
    M.update d FORCE_WRITE s = (.ok (), some (M.serialize d)) ∧
    M.read (M.update d FORCE_WRITE s).2 =
      .ok (M.hash (M.serialize d), M.parse (M.serialize d)) :=
  ⟨rfl, rfl⟩

/-- C10.  On an existing file, update raises the concurrency conflict
    exactly when an explicit non-sentinel expected stamp differing from the
    current stamp is supplied; calling update with the previous_hash
    argument omitted takes the FORCE_WRITE default and overwrites
    unconditionally from any state. -/
theorem c10_conflict_iff_explicit_stale_stamp (M : ManagedConf) (d : DocRoot)
    (c : String) (prev : Version) (s : Option String) :
    ((M.update d prev (some c)).1 = .error .concurrentWrite ↔
      ∃ h, prev = .stamp h ∧ h ≠ M.hash c) ∧
    M.updateDefaulted d s = (.ok (), some (M.serialize d)) := by
  refine ⟨?_, rfl⟩
  cases prev with
  | force => simp [ManagedConf.update]
  | stamp h =>
    by_cases hh : h = M.hash c
    · simp [ManagedConf.update, hh]
    · simp [ManagedConf.update, hh]

/-- C2 evaluation.  The batch [create_group g] is well formed: with no
    interference the loop applies it and exits successfully.  With one
    interfering write between read and update, the first pass is discarded
    and the loop restarts from a fresh read, but _handle_action popped the
    "action" key from the action dictionary during the first pass, so the
    retried pass raises KeyError instead of re-applying the batch with
    identical semantics; the error propagates and nothing is written. -/
theorem c2_retry_pass_raises_keyerror :
    handle_actions idMC [⟨some "create_group", some "g", none, none, none, false⟩]
      (some "\x7b\x7d") [] =
      (.ok (), some "serialized", [⟨none, some "g", none, none, none, false⟩]) ∧
    handle_actions idMC [⟨some "create_group", some "g", none, none, none, false⟩]
      (some "\x7b\x7d") [some "intruder"] =
      (.error .keyError, some "intruder",
        [⟨none, some "g", none, none, none, false⟩]) :=
  ⟨by decide, by decide⟩

theorem addAtFirstId_notfound (s : String) (it : Node) : ∀ l : List Node,
    (∀ x ∈ l, x.id ≠ none) → (∀ x ∈ l, x.id ≠ some s) →
    addAtFirstId s it l = .ok none := by
  intro l
  induction l with
  | nil => intro _ _; rfl
  | cons x xs ih =>
    intro h1 h2
    cases hx : x.id with
    | none => exact absurd hx (h1 x (List.mem_cons_self x xs))
    | some j =>
      have hj : ¬j = s := by
        intro hc
        exact (h2 x (List.mem_cons_self x xs)) (by rw [hx, hc])
      simp only [addAtFirstId, hx, if_neg hj]
      rw [ih (fun y hy => h1 y (List.mem_cons_of_mem x hy))
            (fun y hy => h2 y (List.mem_cons_of_mem x hy))]
      rfl

theorem addAtFirstId_found (s : String) (it : Node) : ∀ l : List Node,
    (∃ x ∈ l, x.id = some s) → (∀ x ∈ l, x.id ≠ none) →
    ∃ l2, addAtFirstId s it l = .ok (some l2) := by
  intro l
  induction l with
  | nil =>
    rintro ⟨x, hx, _⟩ _
    cases hx
  | cons x xs ih =>
    rintro ⟨y, hy, hys⟩ h1
    cases hx : x.id with
    | none => exact absurd hx (h1 x (List.mem_cons_self x xs))
    | some j =>
      by_cases hj : j = s
      · subst hj
        exact ⟨x.withSub (some (x.sub.getD [] ++ [it])) :: xs,
          by simp [addAtFirstId, hx]⟩
      · rcases List.mem_cons.mp hy with rfl | hmem
        · rw [hx] at hys
          injection hys with hys
          exact absurd hys hj
        · obtain ⟨l2, hl2⟩ :=
            ih ⟨y, hmem, hys⟩ (fun z hz => h1 z (List.mem_cons_of_mem x hz))
          refine ⟨x :: l2, ?_⟩
          simp [addAtFirstId, hx, hj, hl2, Except.map]

theorem addAtFirstId_nomatch (s : String) (it : Node) : ∀ l : List Node,
    (∀ x ∈ l, x.id ≠ some s) →
    addAtFirstId s it l = .error .keyError ∨ addAtFirstId s it l = .ok none := by
  intro l
  induction l with
  | nil => intro _; exact Or.inr rfl
  | cons x xs ih =>
    intro h2
    cases hx : x.id with
    | none =>
      left
      simp [addAtFirstId, hx]
    | some j =>
      have hj : ¬j = s := by
        intro hc
        exact (h2 x (List.mem_cons_self x xs)) (by rw [hx, hc])
      rcases ih (fun y hy => h2 y (List.mem_cons_of_mem x hy)) with ha | ha
      · left
        simp [addAtFirstId, hx, hj, ha, Except.map]
      · right
        simp [addAtFirstId, hx, hj, ha, Except.map]

/-- C3 counterexample: a Section with id s2 exists in the tree in the sense
    of the whole-tree depth-first search of the specification (it is
    nested inside section s1), yet _target_to_section scans only the root
    item list, resolves to None, and add_item fails instead of locating
    it. -/
theorem c3_counterexample_nested_section :
    specSectionExistsL "s2"
      [Node.mk (some "section") (some "s1") (some "Out") none 0
        (some [Node.mk (some "section") (some "s2") (some "In") none 0
          (some [])])] = true ∧
    target_to_section ⟨some [Node.mk (some "section") (some "s1") (some "Out") none 0
        (some [Node.mk (some "section") (some "s2") (some "In") none 0
          (some [])])], none, 0⟩ "s2" = .ok none ∧
    add_item ⟨some [Node.mk (some "section") (some "s1") (some "Out") none 0
        (some [Node.mk (some "section") (some "s2") (some "In") none 0
          (some [])])], none, 0⟩
      (Node.mk (some "tool") (some "t1") none none 0 none)
      (some ⟨none, some "s2", 0⟩) = .error .typeError :=
  ⟨by decide, by decide, by decide⟩

/-- C3 amended: resolving a section target scans only the root
    item list of the document, one level deep; when every root item
    carries an id, add_item with a section target succeeds exactly when
    the id of some root item matches, so a section nested inside another
    section is never located. -/
theorem c3_amended_root_scan_only (d : DocRoot) (l : List Node) (it : Node)
    (s : String) (hitems : d.items = some l) (hids : ∀ x ∈ l, x.id ≠ none) :
    (∃ d2, add_item d it (some ⟨none, some s, 0⟩) = .ok d2) ↔
      ∃ x ∈ l, x.id = some s := by
  constructor
  · rintro ⟨d2, hd2⟩
    by_cases hex : ∃ x ∈ l, x.id = some s
    · exact hex
    · push_neg at hex
      have hnone := addAtFirstId_notfound s it l hids hex
      unfold add_item at hd2
      simp only [] at hd2
      rw [hitems] at hd2
      simp only [] at hd2
      rw [hnone] at hd2
      cases hd2
  · intro hex
    obtain ⟨l2, hl2⟩ := addAtFirstId_found s it l hex hids
    refine ⟨{ d with items := some l2 }, ?_⟩
    unfold add_item
    simp only []
    rw [hitems]
    simp only []
    rw [hl2]

/-- Witness for the amended C3 at a one-section root list. -/
theorem c3_amended_witness :
    (∃ d2, add_item ⟨some [Node.mk (some "section") (some "s1") (some "S") none 0
        (some [])], none, 0⟩
      (Node.mk (some "tool") (some "t1") none none 0 none)
      (some ⟨none, some "s1", 0⟩) = .ok d2) ↔
      ∃ x ∈ [Node.mk (some "section") (some "s1") (some "S") none 0 (some [])],
        x.id = some "s1" :=
  c3_amended_root_scan_only _ _ _ "s1" rfl (by decide)

theorem handle_action_add_item (d : DocRoot) (it : Node) (tg : Option TargetD) :
    handle_action d ⟨some "add_item", none, none, some it, tg, false⟩ =
      (add_item d it tg, ⟨none, none, none, some it, tg, false⟩) := by
  unfold handle_action
  simp only []
  rw [if_pos (Or.inl trivial)]
  unfold dispatchAction
  simp only []
  rw [if_neg (by simp)]
  simp

theorem handle_actions_single_error (M : ManagedConf) (c : String)
    (a a2 : ActionDict) (e : Err) (hne : ¬e = .concurrentWrite)
    (hha : handle_action (M.parse c) a = (.error e, a2)) :
    handle_actions M [a] (some c) [] = (.error e, some c, [a2]) := by
  unfold handle_actions ensureExists haLoop haOnce ManagedConf.read foldActs
  simp only []
  rw [hha]
  simp only []
  rw [if_neg hne]

/-- C8 counterexample: on the fresh empty document the add_item failure is
    a KeyError raised by reading the absent "items" key, not a typed
    unresolved-target error; the only typed target error in the code, the
    unknown-target exception, is raised for a different condition (a target
    with neither a "group" nor a "section" key). -/
theorem c8_counterexample_fresh_doc_keyerror :
    handle_actions idMC [⟨some "add_item", none, none,
        some (Node.mk (some "tool") (some "t1") none none 0 none),
        some ⟨none, some "missing", 0⟩, false⟩] (some "\x7b\x7d") [] =
      (.error .keyError, some "\x7b\x7d",
        [⟨none, none, none, some (Node.mk (some "tool") (some "t1") none none 0 none),
          some ⟨none, some "missing", 0⟩, false⟩]) ∧
    Err.keyError ≠ Err.unknownTarget :=
  ⟨by decide, by decide⟩

/-- C8 amended: applying add_item with a section target that no root item
    resolves always fails with an error, a KeyError when the document has
    no root "items" key (so also on the fresh empty document) and otherwise
    a KeyError or TypeError from the failed scan; it is never a silent
    no-op, and the persisted file is unchanged afterwards. -/
theorem c8_amended_unresolved_section_errors (M : ManagedConf) (c : String)
    (it : Node) (s : String)
    (hres : (M.parse c).items = none ∨
      ∃ l, (M.parse c).items = some l ∧ ∀ x ∈ l, x.id ≠ some s) :
    ∃ e, (e = Err.keyError ∨ e = Err.typeError) ∧
      handle_actions M [⟨some "add_item", none, none, some it,
          some ⟨none, some s, 0⟩, false⟩] (some c) [] =
        (.error e, some c,
          [⟨none, none, none, some it, some ⟨none, some s, 0⟩, false⟩]) := by
  have hfail : add_item (M.parse c) it (some ⟨none, some s, 0⟩) = .error .keyError ∨
      add_item (M.parse c) it (some ⟨none, some s, 0⟩) = .error .typeError := by
    rcases hres with hnone | ⟨l, hl, hnot⟩
    · left
      unfold add_item
      simp only []
      rw [hnone]
    · rcases addAtFirstId_nomatch s it l hnot with ha | ha
      · left
        unfold add_item
        simp only []
        rw [hl]
        simp only []
        rw [ha]
      · right
        unfold add_item
        simp only []
        rw [hl]
        simp only []
        rw [ha]
  rcases hfail with hf | hf
  · exact ⟨.keyError, Or.inl rfl,
      handle_actions_single_error M c _ _ _ (by decide)
        (by rw [handle_action_add_item, hf])⟩
  · exact ⟨.typeError, Or.inr rfl,
      handle_actions_single_error M c _ _ _ (by decide)
        (by rw [handle_action_add_item, hf])⟩

/-- Witness for the amended C8 on the fresh empty document. -/
theorem c8_amended_witness :
    ∃ e, (e = Err.keyError ∨ e = Err.typeError) ∧
      handle_actions idMC [⟨some "add_item", none, none,
          some (Node.mk (some "tool") (some "t2") none none 0 none),
          some ⟨none, some "nowhere", 0⟩, false⟩] (some "doc") [] =
        (.error e, some "doc",
          [⟨none, none, none, some (Node.mk (some "tool") (some "t2") none none 0 none),
            some ⟨none, some "nowhere", 0⟩, false⟩]) :=
  c8_amended_unresolved_section_errors idMC "doc"
    (Node.mk (some "tool") (some "t2") none none 0 none) "nowhere" (Or.inl rfl)

/-- C9.  A dependency-style request without a usable "name" parameter
    (absent key or None value) makes manager_dependency,
    resolver_dependency and install_dependency fail with the
    missing-parameter exception; the conclusion holds for every find_dep
    and every installer function, so no resolution or installation is
    attempted, and nothing retries the error. -/
theorem c9_missing_name_fails_before_resolution (a : Type)
    (findDep : PyVal → PyVal → PyVal → Kwds → Option Nat → a)
    (idx : Option Nat) (i : Nat) (rs : List (Resolver a)) (r : Resolver a)
    (f : PyVal → PyVal → PyVal → Kwds → a) (kwds : Kwds)
    (hname : (popD kwds "name" PyVal.null).1 = PyVal.null)
    (hr : rs.get? i = some r) (hf : r.installFn = some f) :
    manager_dependency a findDep idx kwds = .error .missingParam ∧
    resolver_dependency a findDep i kwds = .error .missingParam ∧
    install_dependency a rs i kwds = .error .missingParam := by
  have hp : parse_dependency_info kwds = .error .missingParam := by
    unfold parse_dependency_info
    cases hpop : popD kwds "name" PyVal.null with
    | mk v k1 =>
      rw [hpop] at hname
      simp only [] at hname
      subst hname
      rfl
  refine ⟨?_, ?_, ?_⟩
  · unfold manager_dependency dependencyOp
    rw [hp]
  · unfold resolver_dependency dependencyOp
    rw [hp]
  · unfold install_dependency
    rw [hr]
    simp only []
    rw [hf]
    simp only []
    rw [hp]

/-- Witness for C9 at a concrete resolver list and a request whose only
    parameter is a version. -/
theorem c9_missing_name_witness :
    manager_dependency Nat (fun _ _ _ _ _ => 0) none [("version", PyVal.str "1")] =
      .error .missingParam ∧
    resolver_dependency Nat (fun _ _ _ _ _ => 0) 0 [("version", PyVal.str "1")] =
      .error .missingParam ∧
    install_dependency Nat [⟨some (fun _ _ _ _ => 0)⟩] 0 [("version", PyVal.str "1")] =
      .error .missingParam :=
  c9_missing_name_fails_before_resolution Nat (fun _ _ _ _ _ => 0) none 0
    [⟨some (fun _ _ _ _ => 0)⟩] ⟨some (fun _ _ _ _ => 0)⟩ (fun _ _ _ _ => 0)
    [("version", PyVal.str "1")] (by decide) rfl rfl
